import Mathlib

/-!
Verification of the JobTracker record store (src/script.js).

This file gives a shallow embedding of the core of the application:
the job record data model (`createJob`), UUID generation
(`generateUUID`), the CRUD operations on the in-memory collection
(`addJob`, `updateJob`, `deleteJob`), the soft-delete/undo controller
(`handleConfirmDelete`, `handleUndoDelete`), the query engine
(`applyFilters`), the analytics engine (`calculateAnalytics`,
`calculateTrend`) and the CSV export/import pipeline (`csvText`,
`importFromCSV`).

Modelling conventions:
* Nondeterministic inputs of the JavaScript code are made explicit
  parameters: `Math.random` becomes a list of random nibbles,
  `new Date().toISOString()` timestamps become string/integer inputs,
  and the success of a `localStorage` write (`saveJobs`) becomes a
  `saveOk : Bool` argument.
* The environment's time zone is taken to be UTC, so
  `new Date(s).getTime()` of a date-only string `"YYYY-MM-DD"` is
  `daysFromCivil y m d * 86400000` milliseconds, and
  `toISOString().split("T")[0]` of a timestamp `t` identifies the
  calendar day `Int.fdiv t 86400000`.
* JavaScript strings are modelled by `String`/`List Char`; the CSV
  pipeline works on `List Char` so that `split`, `trim`, the regex
  match and `replace` become explicit list functions.
* `Array.prototype.sort` with a comparator is stable (ES2019), so the
  sort in `applyFilters` is embedded as a stable insertion sort with
  the comparator's ordering.
-/

namespace JobTracker

/-- One nibble of `Math.random() * 16 | 0` rendered with
`Number.prototype.toString(16)` (lower-case hex). -/
def hexDigit (n : Nat) : Char :=
  if n < 10 then Char.ofNat (48 + n) else Char.ofNat (87 + n)

/-- The template string of `generateUUID` in src/script.js. -/
def uuidTemplate : List Char := "xxxxxxxx-xxxx-4xxx-yxxx-xxxxxxxxxxxx".toList

/-- `replace(/[xy]/g, ...)` over the template: each `x` is replaced by a
random hex digit `r`, each `y` by `r & 0x3 | 0x8`; other characters are
kept.  The random source `Math.random()*16|0` is modelled by a list of
nibbles (`% 16` keeps the stated range for arbitrary `Nat` entries). -/
def uuidChars : List Char → List Nat → List Char
  | [], _ => []
  | c :: cs, rs =>
    if c = 'x' then hexDigit (rs.headD 0 % 16) :: uuidChars cs rs.tail
    else if c = 'y' then hexDigit ((rs.headD 0 % 16) &&& 3 ||| 8) :: uuidChars cs rs.tail
    else c :: uuidChars cs rs

/-- `generateUUID` of src/script.js, with the stream of
`Math.random()*16|0` draws made explicit. -/
def generateUUID (rs : List Nat) : String := String.mk (uuidChars uuidTemplate rs)

/-- The escaping performed by `div.textContent = input; div.innerHTML`:
the HTML-significant text characters `&`, `<`, `>` are entity-escaped,
everything else is untouched. -/
def escapeChar (c : Char) : List Char :=
  if c = '&' then "&amp;".toList
  else if c = '<' then "&lt;".toList
  else if c = '>' then "&gt;".toList
  else [c]

/-- `sanitizeInput` of src/script.js (on string inputs). -/
def sanitizeInput (s : String) : String := String.mk (s.toList.flatMap escapeChar)

/-- The field bag handed to `createJob` / `updateJob`
(`formData` in `handleFormSubmit`, `jobData` in `importFromCSV`). -/
structure JobData where
  company : String
  role : String
  jobType : String
  location : String
  applicationDate : String
  status : String
  jobLink : String
  notes : String
deriving Repr, DecidableEq

/-- A stored job record, exactly the object literal built by
`createJob` in src/script.js. -/
structure Job where
  id : String
  company : String
  role : String
  jobType : String
  location : String
  applicationDate : String
  status : String
  jobLink : String
  notes : String
  createdAt : String
deriving Repr, DecidableEq

/-- `createJob` of src/script.js; the generated UUID and the
`new Date().toISOString()` creation timestamp are explicit inputs.
`data.jobLink || ''` and `sanitizeInput(data.notes) || ''` are the
JavaScript falsy-string defaults. -/
def createJob (uuid createdAt : String) (data : JobData) : Job :=
  { id := uuid
    company := sanitizeInput data.company
    role := sanitizeInput data.role
    jobType := data.jobType
    location := data.location
    applicationDate := data.applicationDate
    status := data.status
    jobLink := if data.jobLink = "" then "" else data.jobLink
    notes := if sanitizeInput data.notes = "" then "" else sanitizeInput data.notes
    createdAt := createdAt }

/-- `addJob` of src/script.js: unshift the created record onto
`AppState.jobs`, then persist.  Returns the created record on
successful persistence, `none` otherwise; the second component is the
in-memory collection afterwards (the unshift is never rolled back). -/
def addJob (uuid createdAt : String) (data : JobData) (jobs : List Job)
    (saveOk : Bool) : Option Job × List Job :=
  let job := createJob uuid createdAt data
  let jobs1 := job :: jobs
  if saveOk then (some job, jobs1) else (none, jobs1)

/-- `Array.prototype.findIndex`: index of the first element satisfying
the predicate. -/
def findIndex (p : Job → Bool) : List Job → Option Nat
  | [] => none
  | j :: js => if p j then some 0 else (findIndex p js).map (· + 1)

/-- `array.splice(i, 1)`: remove the element at index `i`. -/
def spliceOut : List Job → Nat → List Job
  | [], _ => []
  | _ :: js, 0 => js
  | j :: js, n + 1 => j :: spliceOut js n

/-- `array.splice(i, 0, x)`: insert `x` at index `i`. -/
def spliceIn (x : Job) : List Job → Nat → List Job
  | l, 0 => x :: l
  | [], _ + 1 => [x]
  | j :: js, n + 1 => j :: spliceIn x js n

/-- `array[i] = x`: overwrite the element at index `i`. -/
def setAt : List Job → Nat → Job → List Job
  | [], _, _ => []
  | _ :: js, 0, x => x :: js
  | j :: js, n + 1, x => j :: setAt js n x

/-- The object spread in `updateJob`: all mutable fields are replaced
(sanitizing free text), `id` and `createdAt` are preserved. -/
def mergeJob (old : Job) (data : JobData) : Job :=
  { old with
    company := sanitizeInput data.company
    role := sanitizeInput data.role
    jobType := data.jobType
    location := data.location
    applicationDate := data.applicationDate
    status := data.status
    jobLink := if data.jobLink = "" then "" else data.jobLink
    notes := if sanitizeInput data.notes = "" then "" else sanitizeInput data.notes }

/-- `updateJob` of src/script.js.  Returns the boolean result together
with the in-memory collection afterwards.  Note that on a persistence
failure the in-place mutation has already happened and is not rolled
back, and that the `false` returned for a missing id is the same value
as the `false` returned for a persistence failure. -/
def updateJob (jobId : String) (data : JobData) (jobs : List Job)
    (saveOk : Bool) : Bool × List Job :=
  match findIndex (fun j => j.id == jobId) jobs with
  | none => (false, jobs)
  | some i =>
    match jobs[i]? with
    | none => (false, jobs)
    | some old =>
      let jobs1 := setAt jobs i (mergeJob old data)
      if saveOk then (true, jobs1) else (false, jobs1)

/-- `deleteJob` of src/script.js: find the record, splice it out,
persist; on persistence failure splice it back in at its original
index and return `null`. -/
def deleteJob (jobId : String) (jobs : List Job) (saveOk : Bool) :
    Option Job × List Job :=
  match findIndex (fun j => j.id == jobId) jobs with
  | none => (none, jobs)
  | some i =>
    match jobs[i]? with
    | none => (none, jobs)
    | some removed =>
      let rest := spliceOut jobs i
      if saveOk then (some removed, rest)
      else (none, spliceIn removed rest i)

/-- The soft-delete/undo controller state: `AppState.jobs`,
`AppState.deletedJob` and whether the 5-second `deleteTimeout` is
pending. -/
structure UndoState where
  jobs : List Job
  deletedJob : Option Job
  timerActive : Bool
deriving Repr, DecidableEq

/-- `handleConfirmDelete` of src/script.js (the state-changing part):
on a successful `deleteJob` the removed record becomes the pending
deleted job and the undo timer starts; otherwise the state is the
collection `deleteJob` left behind. -/
def handleConfirmDelete (jobId : String) (s : UndoState) (saveOk : Bool) : UndoState :=
  if jobId = "" then s
  else
    match deleteJob jobId s.jobs saveOk with
    | (some r, jobs1) => { jobs := jobs1, deletedJob := some r, timerActive := true }
    | (none, jobs1) => { s with jobs := jobs1 }

/-- `handleUndoDelete` of src/script.js: if a deleted job is pending,
unshift it back onto the collection, call `saveJobs()` (whose result
is ignored — `saveOk` does not influence anything), cancel the timer
and clear the pending slot.  The function returns nothing to its
caller, so no failure can be signalled. -/
def handleUndoDelete (s : UndoState) (saveOk : Bool) : UndoState :=
  match s.deletedJob with
  | none => s
  | some d =>
    let _ := saveOk
    { jobs := d :: s.jobs, deletedJob := none, timerActive := false }

/-! ### Dates

`new Date("YYYY-MM-DD")` parses a date-only ISO string as UTC midnight
of that civil day.  `daysFromCivil` is the standard civil-calendar day
count from the Unix epoch (Howard Hinnant's `days_from_civil`). -/

/-- Days since 1970-01-01 of the proleptic Gregorian date `y-m-d`. -/
def daysFromCivil (y m d : Int) : Int :=
  let y1 := if m ≤ 2 then y - 1 else y
  let era := y1.fdiv 400
  let yoe := y1 - era * 400
  let doy := (153 * (m + (if m > 2 then -3 else 9)) + 2).fdiv 5 + d - 1
  let doe := yoe * 365 + yoe.fdiv 4 - yoe.fdiv 100 + doy
  era * 146097 + doe - 719468

/-- Milliseconds per day. -/
def msPerDay : Int := 86400000

/-- `str.split(sep)` for a single-character separator (always a
non-empty list of pieces). -/
def splitOnChar (c : Char) : List Char → List (List Char)
  | [] => [[]]
  | x :: xs =>
    match splitOnChar c xs with
    | [] => [[]]
    | h :: t => if x = c then [] :: h :: t else (x :: h) :: t

/-- The numeric value of a decimal digit character. -/
def decDigit (c : Char) : Nat := c.toNat - 48

/-- A run of decimal digit characters as a number. -/
def natOfDigits (l : List Char) : Nat := l.foldl (fun a c => a * 10 + decDigit c) 0

/-- `new Date(s).getTime()` for a well-formed `"YYYY-MM-DD"` string
(UTC midnight of that civil day).  Malformed strings default to day 0;
all theorems below only use well-formed date strings. -/
def parseDateMs (s : String) : Int :=
  match splitOnChar '-' s.toList with
  | [y, m, d] =>
    daysFromCivil (Int.ofNat (natOfDigits y)) (Int.ofNat (natOfDigits m))
      (Int.ofNat (natOfDigits d)) * msPerDay
  | _ => 0

/-- The UTC calendar day of a timestamp, i.e. the day named by
`date.toISOString().split("T")[0]`.  Two timestamps produce the same
ISO day string exactly when their floor-division day numbers agree. -/
def dayOf (t : Int) : Int := t.fdiv msPerDay

/-! ### Query engine -/

/-- The `AppState.filters` record. -/
structure Filters where
  search : String
  status : String
  jobType : String
  location : String
  sort : String
deriving Repr, DecidableEq

/-- `String.prototype.includes`: substring containment. -/
def includesStr (hay needle : String) : Bool := decide (needle.toList <:+: hay.toList)

/-- The search predicate of `applyFilters`: case-insensitive substring
match against `company` or `role`. -/
def matchesSearch (search : String) (j : Job) : Bool :=
  includesStr j.company.toLower search.toLower || includesStr j.role.toLower search.toLower

/-- The comparator key: `new Date(job.applicationDate)`. -/
def sortKey (j : Job) : Int := parseDateMs j.applicationDate

/-- Stable insertion of `j` into an already-sorted list: `j` goes in
front of the first element it may precede (`le j x = true`), after any
run of earlier elements that compare equal to it — the placement a
stable comparator sort gives each element. -/
def insertSorted (le : Job → Job → Bool) (j : Job) : List Job → List Job
  | [] => [j]
  | x :: xs => if le j x then j :: x :: xs else x :: insertSorted le j xs

/-- The unique stable sort of a list under the total preorder `le`
(the observable behaviour of ES2019 `Array.prototype.sort` with a
consistent comparator). -/
def stableSort (le : Job → Job → Bool) : List Job → List Job
  | [] => []
  | j :: js => insertSorted le j (stableSort le js)

/-- `a` may precede `b` under the `newest` comparator
`dateB - dateA` (i.e. the comparator is `≤ 0`). -/
def newestLe (a b : Job) : Bool := decide (sortKey b ≤ sortKey a)

/-- `a` may precede `b` under the `oldest` comparator `dateA - dateB`. -/
def oldestLe (a b : Job) : Bool := decide (sortKey a ≤ sortKey b)

/-- `applyFilters` of src/script.js as a pure function of the
collection and the filter spec: AND-combined predicates, then the
stable comparator sort. -/
def applyFilters (jobs : List Job) (f : Filters) : List Job :=
  let l1 := if f.search = "" then jobs else jobs.filter (matchesSearch f.search)
  let l2 := if f.status = "all" then l1 else l1.filter (fun j => j.status == f.status)
  let l3 := if f.jobType = "all" then l2 else l2.filter (fun j => j.jobType == f.jobType)
  let l4 := if f.location = "all" then l3 else l3.filter (fun j => j.location == f.location)
  if f.sort = "newest" then stableSort newestLe l4 else stableSort oldestLe l4

/-- The initial `AppState.filters`: no search, every dropdown at
`all`, newest first. -/
def defaultFilters : Filters :=
  { search := "", status := "all", jobType := "all", location := "all", sort := "newest" }

/-! ### Analytics engine -/

/-- The `statusBreakdown` accumulator object of `calculateAnalytics`. -/
structure Breakdown where
  Applied : Nat
  Interview : Nat
  Offer : Nat
  Rejected : Nat
  Ghosted : Nat
deriving Repr, DecidableEq

/-- One step of the `forEach` in `calculateAnalytics`: bump the bucket
owned by the record's status, if the breakdown object has that key. -/
def bumpStatus (b : Breakdown) (j : Job) : Breakdown :=
  if j.status = "Applied" then { b with Applied := b.Applied + 1 }
  else if j.status = "Interview" then { b with Interview := b.Interview + 1 }
  else if j.status = "Offer" then { b with Offer := b.Offer + 1 }
  else if j.status = "Rejected" then { b with Rejected := b.Rejected + 1 }
  else if j.status = "Ghosted" then { b with Ghosted := b.Ghosted + 1 }
  else b

/-- `calculateAnalytics` of src/script.js: the collection size and the
per-status breakdown. -/
def calculateAnalytics (jobs : List Job) : Nat × Breakdown :=
  (jobs.length, jobs.foldl bumpStatus ⟨0, 0, 0, 0, 0⟩)

/-- `Object.values(statusBreakdown).some(val => val > 0)` in
`renderCharts`. -/
def hasData (b : Breakdown) : Bool :=
  decide (0 < b.Applied) || decide (0 < b.Interview) || decide (0 < b.Offer) ||
    decide (0 < b.Rejected) || decide (0 < b.Ghosted)

/-- The five enumerated statuses. -/
def recognizedStatuses : List String :=
  ["Applied", "Interview", "Offer", "Rejected", "Ghosted"]

/-- `dateMap[dateKey] || 0` of `calculateTrend`: how many records pass
the 30-day window check (`jobDate >= last30Days`, a timestamp
comparison against `now` minus 30 days) and fall on the UTC calendar
day `key`. -/
def trendCount (now : Int) (jobs : List Job) (key : Int) : Nat :=
  (jobs.filter (fun j =>
    decide (now - 30 * msPerDay ≤ parseDateMs j.applicationDate) &&
      decide (dayOf (parseDateMs j.applicationDate) = key))).length

/-- The `data` array of `calculateTrend` in src/script.js: for
`i = 29` down to `0` (so oldest day first), the bucket count of the
calendar day of `now` minus `i` days. -/
def calculateTrend (now : Int) (jobs : List Job) : List Nat :=
  (List.range 30).map (fun n => trendCount now jobs (dayOf (now - (29 - (n : Int)) * msPerDay)))

/-! ### CSV export

`exportToCSV` builds `headers.join(',')` followed by one line per
record, every cell wrapped in double quotes, lines joined with `\n`.
The text is modelled as `List Char`. -/

/-- One CSV cell: `` `"${cell}"` ``. -/
def quoteCell (cell : List Char) : List Char := '"' :: cell ++ ['"']

/-- `row.map(cell => `"${cell}"`).join(',')`. -/
def rowOf : List (List Char) → List Char
  | [] => []
  | [cell] => quoteCell cell
  | cell :: cells => quoteCell cell ++ ',' :: rowOf cells

/-- The eight exported cells of a record, in header order. -/
def exportFields (j : Job) : List (List Char) :=
  [j.company.toList, j.role.toList, j.jobType.toList, j.location.toList,
    j.applicationDate.toList, j.status.toList, j.jobLink.toList, j.notes.toList]

/-- The header row `headers.join(',')`. -/
def headerLine : List Char :=
  "Company,Role,Job Type,Location,Application Date,Status,Job Link,Notes".toList

/-- `lines.join('\n')`. -/
def joinLines : List (List Char) → List Char
  | [] => []
  | [l] => l
  | l :: ls => l ++ '\n' :: joinLines ls

/-- The `csvContent` string of `exportToCSV` (the download mechanics
are presentation). -/
def csvText (jobs : List Job) : List Char :=
  joinLines (headerLine :: jobs.map (fun j => rowOf (exportFields j)))

/-! ### CSV import

`importFromCSV` splits the text on `\n`, skips the header, trims each
line, tokenizes it with the sticky regex
`/(".*?"|[^",\s]+)(?=\s*,|\s*$)/g`, strips one leading and one
trailing quote from each token, and feeds the first eight tokens to
`addJob`. -/

/-- JavaScript `\s` (the inputs handled here are ASCII). -/
def isSpaceChar (c : Char) : Bool := c.isWhitespace

/-- `line.trim()`. -/
def trimList (l : List Char) : List Char :=
  ((l.dropWhile isSpaceChar).reverse.dropWhile isSpaceChar).reverse

/-- The lookahead `(?=\s*,|\s*$)`: after optional whitespace, a comma
or the end of the line. -/
def lookaheadOk (cs : List Char) : Bool :=
  match cs.dropWhile isSpaceChar with
  | [] => true
  | c :: _ => c = ','

/-- The lazy quoted alternative `".*?"` of the regex, entered just
after the opening quote: scan for the first closing quote whose
position satisfies the lookahead (backtracking past quotes that do
not); `.` does not cross line terminators.  Returns the content
between the quotes and the rest of the line. -/
def matchQuoted : List Char → Option (List Char × List Char)
  | [] => none
  | c :: rest =>
    if c = '"' && lookaheadOk rest then some ([], rest)
    else if c = '\n' || c = '\r' then none
    else
      match matchQuoted rest with
      | none => none
      | some (content, r) => some (c :: content, r)

/-- A character the bare alternative `[^",\s]+` may contain. -/
def barePred (c : Char) : Bool := !(c = '"' || c = ',' || isSpaceChar c)

/-- Backtracking of the greedy bare run against the lookahead: try the
full run first, then give characters back one at a time from its end.
The first argument is the (remaining) run reversed. -/
def bareBacktrackRev : List Char → List Char → Option (List Char × List Char)
  | [], _ => none
  | c :: revRun, rest =>
    if lookaheadOk rest then some ((c :: revRun).reverse, rest)
    else bareBacktrackRev revRun (c :: rest)

/-- One attempt of the regex at the current position (character `c`
followed by `rest`): the quoted alternative first, then the bare one.
Returns the matched token and the rest of the line. -/
def matchAt (c : Char) (rest : List Char) : Option (List Char × List Char) :=
  if c = '"' then
    match matchQuoted rest with
    | none => none
    | some (content, r) => some ('"' :: content ++ ['"'], r)
  else if barePred c then
    let run := c :: rest.takeWhile barePred
    bareBacktrackRev run.reverse (rest.dropWhile barePred)
  else none

/-- `line.match(regex)` with the global flag: repeatedly match,
advancing one character when no match starts at the current position.
Every match consumes at least one character, so `fuel := line.length`
suffices (`scanMatches`). -/
def scanAux : Nat → List Char → List (List Char)
  | 0, _ => []
  | _ + 1, [] => []
  | fuel + 1, c :: rest =>
    match matchAt c rest with
    | none => scanAux fuel rest
    | some (m, r) => m :: scanAux fuel r

/-- `line.match(/(".*?"|[^",\s]+)(?=\s*,|\s*$)/g)`, as a list of
matched tokens (`[]` for JavaScript's `null`). -/
def scanMatches (l : List Char) : List (List Char) := scanAux l.length l

/-- `field.replace(/^"|"$/g, '')`: drop one leading and one trailing
double quote, when present. -/
def stripQuotes (l : List Char) : List Char :=
  let l1 := match l with
    | [] => []
    | c :: rest => if c = '"' then rest else c :: rest
  match l1.getLast? with
  | some c => if c = '"' then l1.dropLast else l1
  | none => l1

/-- Parse one CSV line into a `JobData`, or skip it (`none`): blank
after trimming, or fewer than 6 regex tokens.  Missing 7th/8th fields
default to the empty string (the destructuring defaults). -/
def parseLine (l : List Char) : Option JobData :=
  let t := trimList l
  if t.isEmpty then none
  else
    let ms := scanMatches t
    if ms.length < 6 then none
    else
      let fs := ms.map stripQuotes
      some
        { company := String.mk (fs.getD 0 [])
          role := String.mk (fs.getD 1 [])
          jobType := String.mk (fs.getD 2 [])
          location := String.mk (fs.getD 3 [])
          applicationDate := String.mk (fs.getD 4 [])
          status := String.mk (fs.getD 5 [])
          jobLink := String.mk (fs.getD 6 [])
          notes := String.mk (fs.getD 7 []) }

/-- The import loop: each parsed line becomes one `addJob` call
(consuming the next generated uuid/timestamp); records whose `addJob`
persisted go into the `imported` array, the collection keeps every
inserted record either way.  Returns `(imported, final collection)`. -/
def importLines (uuids createdAts : Nat → String) (saveOk : Bool) :
    List (List Char) → Nat → List Job → List Job × List Job
  | [], _, jobs => ([], jobs)
  | l :: ls, n, jobs =>
    match parseLine l with
    | none => importLines uuids createdAts saveOk ls n jobs
    | some data =>
      match addJob (uuids n) (createdAts n) data jobs saveOk with
      | (some job, jobs1) =>
        let rec1 := importLines uuids createdAts saveOk ls (n + 1) jobs1
        (job :: rec1.1, rec1.2)
      | (none, jobs1) => importLines uuids createdAts saveOk ls (n + 1) jobs1

/-- `importFromCSV` of src/script.js (the `reader.onload` body): split
into lines, bail out when there are fewer than two, skip the header
row, import the rest. -/
def importFromCSV (text : List Char) (uuids createdAts : Nat → String)
    (saveOk : Bool) (jobs : List Job) : List Job × List Job :=
  let lines := splitOnChar '\n' text
  if lines.length < 2 then ([], jobs)
  else importLines uuids createdAts saveOk (lines.drop 1) 0 jobs

/-- The eight round-tripped payload fields of a record (`id` and
`createdAt` are regenerated on import). -/
def payload (j : Job) : JobData :=
  { company := j.company, role := j.role, jobType := j.jobType, location := j.location,
    applicationDate := j.applicationDate, status := j.status, jobLink := j.jobLink,
    notes := j.notes }

/-- A field the CSV line grammar can carry faithfully: it contains no
double quote and no line terminator. -/
def cleanField (s : String) : Prop :=
  ∀ c ∈ s.toList, ¬(c = '"' ∨ c = '\n' ∨ c = '\r')

/-- Decidability, so witnesses can be checked by evaluation. -/
instance (s : String) : Decidable (cleanField s) := by
  unfold cleanField; infer_instance

/-- All eight payload fields of a record are CSV-clean, and the free
text fields are already fixed points of `sanitizeInput` (sanitization
is applied again on import and is not idempotent on `&`, `<`, `>`). -/
def cleanJob (j : Job) : Prop :=
  cleanField j.company ∧ cleanField j.role ∧ cleanField j.jobType ∧
    cleanField j.location ∧ cleanField j.applicationDate ∧ cleanField j.status ∧
    cleanField j.jobLink ∧ cleanField j.notes ∧
    sanitizeInput j.company = j.company ∧ sanitizeInput j.role = j.role ∧
    sanitizeInput j.notes = j.notes

/-- Decidability, so witnesses can be checked by evaluation. -/
instance (j : Job) : Decidable (cleanJob j) := by
  unfold cleanJob; infer_instance

/-- Number of records with a given status (the value
`statusBreakdown[s]` ends up with for a recognized `s`). -/
def countStatus (s : String) (jobs : List Job) : Nat :=
  (jobs.filter (fun j => j.status == s)).length

/-! ### Concrete sample data for witnesses and counterexamples -/

/-- A sample valid field set. -/
def sampleData1 : JobData :=
  { company := "Google", role := "SWE", jobType := "Full-time", location := "Remote",
    applicationDate := "2026-01-28", status := "Applied", jobLink := "", notes := "" }

/-- A second sample valid field set. -/
def sampleData2 : JobData :=
  { company := "Meta", role := "PM", jobType := "Contract", location := "Onsite",
    applicationDate := "2026-02-02", status := "Offer", jobLink := "http://x.example",
    notes := "call back" }

/-- A stored sample record. -/
def sampleJob1 : Job := createJob "u1" "t1" sampleData1

/-- A second stored sample record. -/
def sampleJob2 : Job := createJob "u2" "t2" sampleData2

/-- A record created with the all-zero random stream. -/
def sampleDupJob : Job := createJob (generateUUID (List.replicate 31 0)) "t0" sampleData1

/-- A sample regenerated-uuid source for import. -/
def sampleUuids : Nat → String := fun n => String.mk ('v' :: (Nat.toDigits 10 n).map id)

/-- A sample regenerated-createdAt source for import. -/
def sampleCreatedAts : Nat → String := fun n => String.mk ('w' :: (Nat.toDigits 10 n).map id)

/-! ### Helper lemmas on `findIndex` / `splice` -/

theorem findIndex_structure (p : Job → Bool) :
    ∀ (l : List Job) (n : Nat), findIndex p l = some n →
      ∃ x, l[n]? = some x ∧ p x = true ∧ spliceIn x (spliceOut l n) n = l ∧
        (x :: spliceOut l n).Perm l := by
  intro l
  induction l with
  | nil => intro n h; simp [findIndex] at h
  | cons j js ih =>
    intro n h
    by_cases hp : p j
    · simp [findIndex, hp] at h
      subst h
      exact ⟨j, by simp, hp, by simp [spliceOut, spliceIn], List.Perm.refl _⟩
    · simp [findIndex, hp] at h
      obtain ⟨m, hm, rfl⟩ := h
      obtain ⟨x, hx1, hx2, hx3, hx4⟩ := ih m hm
      refine ⟨x, ?_, hx2, ?_, ?_⟩
      · simpa using hx1
      · simpa [spliceOut, spliceIn] using congrArg (j :: ·) hx3
      · exact (List.Perm.swap j x _).trans (List.Perm.cons j hx4)

theorem findIndex_isSome_of_mem (p : Job → Bool) :
    ∀ (l : List Job), (∃ j ∈ l, p j = true) → ∃ n, findIndex p l = some n := by
  intro l
  induction l with
  | nil => rintro ⟨j, hj, _⟩; simp at hj
  | cons j js ih =>
    rintro ⟨x, hx, hpx⟩
    by_cases hp : p j
    · exact ⟨0, by simp [findIndex, hp]⟩
    · rcases List.mem_cons.mp hx with rfl | hx'
      · exact absurd hpx hp
      · obtain ⟨m, hm⟩ := ih ⟨x, hx', hpx⟩
        exact ⟨m + 1, by simp [findIndex, hp, hm]⟩

theorem findIndex_eq_none (p : Job → Bool) :
    ∀ (l : List Job), (∀ j ∈ l, p j = false) → findIndex p l = none := by
  intro l
  induction l with
  | nil => intro; rfl
  | cons j js ih =>
    intro h
    have hj := h j (List.mem_cons_self j js)
    simp [findIndex, hj, ih (fun x hx => h x (List.mem_cons_of_mem j hx))]

/-! ### Claim C1 -/

/-- C1: for every collection and every id present in it, a successful
`deleteJob` followed immediately by `handleUndoDelete` restores the very
record that was removed (hence identical in all fields, `id` and
`createdAt` included), reinserted at the front of the collection, and
the resulting collection is a permutation of — in particular equal as a
set to — the pre-removal collection. -/
theorem remove_then_undo_restores (jobs : List Job) (i : String)
    (h : ∃ j ∈ jobs, j.id = i) :
    ∃ r, (deleteJob i jobs true).1 = some r ∧ r ∈ jobs ∧ r.id = i ∧
      handleUndoDelete ⟨(deleteJob i jobs true).2, some r, true⟩ true =
        ⟨r :: (deleteJob i jobs true).2, none, false⟩ ∧
      (r :: (deleteJob i jobs true).2).Perm jobs ∧
      ∀ x, x ∈ r :: (deleteJob i jobs true).2 ↔ x ∈ jobs := by
  obtain ⟨j0, hj0, hid⟩ := h
  obtain ⟨n, hn⟩ := findIndex_isSome_of_mem (fun j => j.id == i) jobs ⟨j0, hj0, by simp [hid]⟩
  obtain ⟨x, hx1, hx2, _, hx4⟩ := findIndex_structure (fun j => j.id == i) jobs n hn
  have hdel : deleteJob i jobs true = (some x, spliceOut jobs n) := by
    simp [deleteJob, hn, hx1]
  refine ⟨x, by simp [hdel], ?_, ?_, ?_, ?_, ?_⟩
  · exact hx4.subset (List.mem_cons_self x _)
  · simpa using hx2
  · simp [hdel, handleUndoDelete]
  · simpa [hdel] using hx4
  · intro y; simpa [hdel] using hx4.mem_iff

/-- Witness for C1 at a concrete two-record collection. -/
theorem remove_then_undo_restores_witness :
    (∃ j ∈ [sampleJob1, sampleJob2], j.id = "u2") ∧
    (∃ r, (deleteJob "u2" [sampleJob1, sampleJob2] true).1 = some r ∧
      r ∈ [sampleJob1, sampleJob2] ∧ r.id = "u2" ∧
      handleUndoDelete ⟨(deleteJob "u2" [sampleJob1, sampleJob2] true).2, some r, true⟩ true =
        ⟨r :: (deleteJob "u2" [sampleJob1, sampleJob2] true).2, none, false⟩ ∧
      (r :: (deleteJob "u2" [sampleJob1, sampleJob2] true).2).Perm [sampleJob1, sampleJob2] ∧
      ∀ x, x ∈ r :: (deleteJob "u2" [sampleJob1, sampleJob2] true).2 ↔
        x ∈ [sampleJob1, sampleJob2]) :=
  ⟨by decide, remove_then_undo_restores [sampleJob1, sampleJob2] "u2" (by decide)⟩

/-! ### Claim C4 -/

/-- C4: when the id is present and persisting the post-removal
collection fails, `deleteJob` reinserts the extracted record at its
original position — the in-memory collection is exactly its
pre-removal state — and signals failure by returning `none`. -/
theorem remove_persist_failure_rolls_back (jobs : List Job) (i : String)
    (h : ∃ j ∈ jobs, j.id = i) :
    deleteJob i jobs false = (none, jobs) := by
  obtain ⟨j0, hj0, hid⟩ := h
  obtain ⟨n, hn⟩ := findIndex_isSome_of_mem (fun j => j.id == i) jobs ⟨j0, hj0, by simp [hid]⟩
  obtain ⟨x, hx1, _, hx3, _⟩ := findIndex_structure (fun j => j.id == i) jobs n hn
  simp [deleteJob, hn, hx1, hx3]

/-- Witness for C4 at a concrete two-record collection. -/
theorem remove_persist_failure_rolls_back_witness :
    (∃ j ∈ [sampleJob1, sampleJob2], j.id = "u1") ∧
    deleteJob "u1" [sampleJob1, sampleJob2] false = (none, [sampleJob1, sampleJob2]) :=
  ⟨by decide, remove_persist_failure_rolls_back [sampleJob1, sampleJob2] "u1" (by decide)⟩

/-! ### Claim C7 -/

/-- C7 (amended): `updateJob` on an absent id performs no mutation and
returns `false`; but `false` is the very same signal the function
returns for a persistence failure on a found id, so "not found" is
not distinguishable from other failure kinds by the caller. -/
theorem update_not_found_no_mutation (i : String) (d : JobData) (jobs : List Job)
    (saveOk : Bool) (h : ∀ j ∈ jobs, j.id ≠ i) :
    updateJob i d jobs saveOk = (false, jobs) := by
  have hnone : findIndex (fun j => j.id == i) jobs = none :=
    findIndex_eq_none _ jobs (fun j hj => by simpa using h j hj)
  simp [updateJob, hnone]

/-- Witness for the amended C7 at a concrete input. -/
theorem update_not_found_no_mutation_witness :
    (∀ j ∈ [sampleJob1], j.id ≠ "zzz") ∧
    updateJob "zzz" sampleData2 [sampleJob1] true = (false, [sampleJob1]) :=
  ⟨by decide, update_not_found_no_mutation "zzz" sampleData2 [sampleJob1] true (by decide)⟩

/-- Counterexample to C7 as stated: the not-found signal (id `"zzz"`
absent, persistence fine) and the persistence-failure signal (id
`"u1"` present, save fails) are the identical value `false`, so the
two failure kinds are not signalled distinctly. -/
theorem update_not_found_signal_collision :
    ("zzz" ∉ [sampleJob1].map Job.id) ∧ ("u1" ∈ [sampleJob1].map Job.id) ∧
    (updateJob "zzz" sampleData2 [sampleJob1] true).1 = false ∧
    (updateJob "u1" sampleData2 [sampleJob1] false).1 = false := by decide

/-! ### Claim C9 -/

/-- C9: when persisting fails, `addJob` signals failure by returning
`none`, yet the newly created record stays at the front of the
in-memory collection — the insertion is not rolled back, so the
in-memory collection differs from the pre-add (persisted) one. -/
theorem add_persist_failure_keeps_record (uuid ts : String) (d : JobData)
    (jobs : List Job) :
    addJob uuid ts d jobs false = (none, createJob uuid ts d :: jobs) ∧
      createJob uuid ts d :: jobs ≠ jobs := by
  refine ⟨rfl, fun hcontra => ?_⟩
  simpa using congrArg List.length hcontra

/-! ### Claim C10 -/

/-- C10: with a pending deleted record, `handleUndoDelete` reinserts
it at the front, cancels the timer and clears the pending slot, and
its result does not depend on whether persisting succeeds (`saveJobs`'
return value is discarded and nothing is returned to the caller). -/
theorem undo_ignores_persistence (jobs : List Job) (d : Job) (t saveOk : Bool) :
    handleUndoDelete ⟨jobs, some d, t⟩ saveOk = ⟨d :: jobs, none, false⟩ := rfl

/-! ### Claim C2 -/

/-- Counterexample to C2 as stated: `generateUUID` never consults the
existing collection, so when the random source repeats (here: the
all-zero nibble stream twice), `addJob` produces a record whose id
equals an existing record's id and the live collection holds duplicate
ids. -/
theorem add_duplicate_id :
    sampleDupJob.id = generateUUID (List.replicate 31 0) ∧
    ((addJob (generateUUID (List.replicate 31 0)) "t9" sampleData2 [sampleDupJob]
        true).1.map Job.id) = some (generateUUID (List.replicate 31 0)) ∧
    ¬ (((addJob (generateUUID (List.replicate 31 0)) "t9" sampleData2 [sampleDupJob]
        true).2).map Job.id).Nodup := by decide

/-- C2 (amended): `addJob` assigns the generated UUID as the new
record's id verbatim, so the produced id differs from every existing
record's id exactly when the generated UUID string is not already
present — uniqueness depends on the random draws and is not checked
against the collection. -/
theorem add_id_fresh_iff_uuid_fresh (rands : List Nat) (ts : String) (d : JobData)
    (jobs : List Job) (saveOk : Bool) (h : generateUUID rands ∉ jobs.map Job.id) :
    ∀ r, (addJob (generateUUID rands) ts d jobs saveOk).1 = some r →
      r.id ∉ jobs.map Job.id := by
  intro r hr
  by_cases hs : saveOk
  · have : createJob (generateUUID rands) ts d = r := by simpa [addJob, hs] using hr
    rw [← this]
    simpa [createJob] using h
  · simp [addJob, hs] at hr

/-- Witness for the amended C2 at a concrete input. -/
theorem add_id_fresh_iff_uuid_fresh_witness :
    (generateUUID (List.replicate 31 0) ∉ [sampleJob1].map Job.id) ∧
    (createJob (generateUUID (List.replicate 31 0)) "t9" sampleData2).id ∉
      [sampleJob1].map Job.id :=
  ⟨by decide, add_id_fresh_iff_uuid_fresh (List.replicate 31 0) "t9" sampleData2
    [sampleJob1] true (by decide) _ rfl⟩

/-! ### Claim C8 -/

theorem foldl_bumpStatus (l : List Job) :
    ∀ b : Breakdown, l.foldl bumpStatus b =
      ⟨b.Applied + countStatus "Applied" l, b.Interview + countStatus "Interview" l,
        b.Offer + countStatus "Offer" l, b.Rejected + countStatus "Rejected" l,
        b.Ghosted + countStatus "Ghosted" l⟩ := by
  induction l with
  | nil => intro b; simp [countStatus]
  | cons j t ih =>
    intro b
    rw [List.foldl_cons, ih (bumpStatus b j)]
    unfold bumpStatus countStatus
    split_ifs with h1 h2 h3 h4 h5 <;>
      simp_all [List.filter_cons, countStatus] <;> omega

theorem countStatus_pos_of_mem (s : String) (jobs : List Job) (j : Job)
    (hj : j ∈ jobs) (hs : j.status = s) : 0 < countStatus s jobs := by
  have : j ∈ jobs.filter (fun x => x.status == s) :=
    List.mem_filter.mpr ⟨hj, by simp [hs]⟩
  have := List.length_pos.mpr (List.ne_nil_of_mem this)
  simpa [countStatus] using this

/-- C8: `calculateAnalytics` counts records per status over exactly the
five enumerated statuses (each bucket is the number of records bearing
that status, so a record with an unrecognized status lands in no
bucket) while `total` is the full collection length (so such a record
is still counted there); the empty collection yields all-zero buckets
with `hasData = false`, and any collection containing a
recognized-status record yields `hasData = true`. -/
theorem statusBreakdown_correct (jobs : List Job) :
    (calculateAnalytics jobs).1 = jobs.length ∧
    (calculateAnalytics jobs).2 =
      ⟨countStatus "Applied" jobs, countStatus "Interview" jobs,
        countStatus "Offer" jobs, countStatus "Rejected" jobs,
        countStatus "Ghosted" jobs⟩ ∧
    (∀ j : Job, j.status ∉ recognizedStatuses →
      (calculateAnalytics (j :: jobs)).2 = (calculateAnalytics jobs).2 ∧
        (calculateAnalytics (j :: jobs)).1 = jobs.length + 1) ∧
    calculateAnalytics [] = (0, ⟨0, 0, 0, 0, 0⟩) ∧
    hasData (calculateAnalytics []).2 = false ∧
    ((∃ j ∈ jobs, j.status ∈ recognizedStatuses) →
      hasData (calculateAnalytics jobs).2 = true) := by
  have hbd : ∀ l : List Job, (calculateAnalytics l).2 =
      ⟨countStatus "Applied" l, countStatus "Interview" l, countStatus "Offer" l,
        countStatus "Rejected" l, countStatus "Ghosted" l⟩ := by
    intro l
    simpa using foldl_bumpStatus l ⟨0, 0, 0, 0, 0⟩
  refine ⟨rfl, hbd jobs, ?_, by simp [calculateAnalytics], by decide, ?_⟩
  · intro j hj
    refine ⟨?_, rfl⟩
    rw [hbd (j :: jobs), hbd jobs]
    simp only [recognizedStatuses, List.mem_cons, List.mem_singleton] at hj
    push_neg at hj
    obtain ⟨h1, h2, h3, h4, h5, -⟩ := hj
    simp [countStatus, List.filter_cons, h1, h2, h3, h4, h5]
  · rintro ⟨j, hj, hs⟩
    rw [hbd jobs]
    simp only [recognizedStatuses, List.mem_cons, List.mem_singleton] at hs
    rcases hs with h | h | h | h | (h | h)
    all_goals first
      | (have hpos := countStatus_pos_of_mem _ jobs j hj h; simp [hasData]; omega)
      | simp_all

/-- Witness for C8 at a concrete mixed collection (one recognized, one
unrecognized status would need a third record; here the hypothesis of
the final conjunct is discharged with a recognized record). -/
theorem statusBreakdown_correct_witness :
    (∃ j ∈ [sampleJob1, sampleJob2], j.status ∈ recognizedStatuses) ∧
    hasData (calculateAnalytics [sampleJob1, sampleJob2]).2 = true :=
  ⟨by decide, ((statusBreakdown_correct [sampleJob1, sampleJob2]).2.2.2.2.2) (by decide)⟩

/-! ### Claim C5 -/

theorem dayOf_sub_mul (t i : Int) : dayOf (t - i * msPerDay) = dayOf t - i := by
  unfold dayOf
  rw [Int.fdiv_eq_ediv _ (by norm_num [msPerDay]), Int.fdiv_eq_ediv _ (by norm_num [msPerDay])]
  have h := Int.add_mul_ediv_right t (-i) (by norm_num [msPerDay] : msPerDay ≠ 0)
  have : t - i * msPerDay = t + -i * msPerDay := by ring
  rw [this, h]
  ring

theorem dayOf_mul_self (D : Int) : dayOf (D * msPerDay) = D := by
  unfold dayOf
  rw [Int.fdiv_eq_ediv _ (by norm_num [msPerDay])]
  exact Int.mul_ediv_cancel D (by norm_num [msPerDay])

theorem dayOf_mul_le (t : Int) : dayOf t * msPerDay ≤ t := by
  unfold dayOf
  rw [Int.fdiv_eq_ediv _ (by norm_num [msPerDay])]
  exact Int.ediv_mul_le t (by norm_num [msPerDay])

theorem lt_dayOf_add_one_mul (t : Int) : t < (dayOf t + 1) * msPerDay := by
  unfold dayOf
  rw [Int.fdiv_eq_ediv _ (by norm_num [msPerDay])]
  exact Int.lt_ediv_add_one_mul_self t (by norm_num [msPerDay])

/-- C5: a collection holding exactly one record whose
`applicationDate` is the calendar day of `now` — whatever the
time-of-day component of `now` is, i.e. comparison is by calendar day —
yields a trend sequence of length 30 with `1` in the last (today)
position and `0` everywhere else, days oldest-first. -/
theorem trend_single_today (now : Int) (j : Job)
    (h : parseDateMs j.applicationDate = dayOf now * msPerDay) :
    calculateTrend now [j] = List.replicate 29 0 ++ [1] := by
  have hlt := lt_dayOf_add_one_mul now
  have hwin : now - 30 * msPerDay ≤ parseDateMs j.applicationDate := by
    rw [h]
    have : (dayOf now + 1) * msPerDay = dayOf now * msPerDay + msPerDay := by ring
    rw [this] at hlt
    have hms : (0:Int) < msPerDay := by norm_num [msPerDay]
    linarith
  have hday : dayOf (parseDateMs j.applicationDate) = dayOf now := by
    rw [h, dayOf_mul_self]
  have hwin2 : now ≤ parseDateMs j.applicationDate + 30 * msPerDay := by linarith
  have hcount : ∀ key : Int, trendCount now [j] key = if dayOf now = key then 1 else 0 := by
    intro key
    unfold trendCount
    by_cases hk : dayOf now = key <;>
      simp [List.filter_cons, hwin, hwin2, hday, hk]
  have hpt : ∀ n ∈ List.range 30,
      trendCount now [j] (dayOf (now - (29 - (n : Int)) * msPerDay)) =
        if n = 29 then 1 else 0 := by
    intro n _
    rw [hcount, dayOf_sub_mul]
    by_cases h29 : n = 29
    · simp [h29]
    · have hne : (n : Int) ≠ 29 := by exact_mod_cast h29
      have : ¬ (dayOf now = dayOf now - (29 - (n : Int))) := by omega
      simp [h29, this]
  calc calculateTrend now [j]
      = (List.range 30).map (fun n => if n = 29 then 1 else 0) :=
        List.map_congr_left hpt
    _ = List.replicate 29 0 ++ [1] := by decide

/-- Witness for C5: a record dated 2026-10-11 with `now` some
afternoon timestamp of that same day. -/
theorem trend_single_today_witness :
    (parseDateMs "2026-10-11" =
      dayOf (parseDateMs "2026-10-11" + 12345678) * msPerDay) ∧
    calculateTrend (parseDateMs "2026-10-11" + 12345678)
      [{ sampleJob1 with applicationDate := "2026-10-11" }] =
        List.replicate 29 0 ++ [1] :=
  ⟨by decide, trend_single_today (parseDateMs "2026-10-11" + 12345678)
    { sampleJob1 with applicationDate := "2026-10-11" } (by decide)⟩

/-! ### Claim C6 -/

theorem insertSorted_perm (le : Job → Job → Bool) (j : Job) (l : List Job) :
    (insertSorted le j l).Perm (j :: l) := by
  induction l with
  | nil => simp [insertSorted]
  | cons x xs ih =>
    unfold insertSorted
    by_cases h : le j x
    · simp [h]
    · simp only [h, if_neg, Bool.false_eq_true, not_false_eq_true, if_false]
      exact (List.Perm.cons x ih).trans (List.Perm.swap j x xs)

theorem stableSort_perm (le : Job → Job → Bool) (l : List Job) :
    (stableSort le l).Perm l := by
  induction l with
  | nil => simp [stableSort]
  | cons j js ih =>
    exact (insertSorted_perm le j (stableSort le js)).trans (List.Perm.cons j ih)

theorem insertSorted_pairwise_newest (j : Job) (l : List Job)
    (h : l.Pairwise (fun a b => sortKey b ≤ sortKey a)) :
    (insertSorted newestLe j l).Pairwise (fun a b => sortKey b ≤ sortKey a) := by
  induction l with
  | nil => simp [insertSorted]
  | cons x xs ih =>
    rw [List.pairwise_cons] at h
    unfold insertSorted
    by_cases hle : newestLe j x
    · have hxj : sortKey x ≤ sortKey j := by simpa [newestLe] using hle
      simp only [hle, if_true]
      rw [List.pairwise_cons]
      refine ⟨?_, List.pairwise_cons.mpr h⟩
      intro y hy
      rcases List.mem_cons.mp hy with rfl | hy'
      · exact hxj
      · exact le_trans (h.1 y hy') hxj
    · have hjx : sortKey j ≤ sortKey x := by
        have := (Bool.not_eq_true _).mp hle
        simp only [newestLe, decide_eq_false_iff_not, not_le] at this
        exact le_of_lt this
      simp only [hle, Bool.false_eq_true, if_false]
      rw [List.pairwise_cons]
      refine ⟨?_, ih h.2⟩
      intro y hy
      rcases List.mem_cons.mp ((insertSorted_perm newestLe j xs).mem_iff.mp hy) with rfl | h1
      · exact hjx
      · exact h.1 y h1

theorem stableSort_pairwise_newest (l : List Job) :
    (stableSort newestLe l).Pairwise (fun a b => sortKey b ≤ sortKey a) := by
  induction l with
  | nil => simp [stableSort]
  | cons j js ih => exact insertSorted_pairwise_newest j (stableSort newestLe js) ih

theorem filter_insertSorted_newest (k : Int) (j : Job) (l : List Job) :
    (insertSorted newestLe j l).filter (fun x => sortKey x == k) =
      if sortKey j = k then j :: l.filter (fun x => sortKey x == k)
      else l.filter (fun x => sortKey x == k) := by
  induction l with
  | nil => by_cases hj : sortKey j = k <;> simp [insertSorted, hj]
  | cons x xs ih =>
    unfold insertSorted
    by_cases hle : newestLe j x
    · by_cases hj : sortKey j = k <;> simp [hle, List.filter_cons, hj]
    · have hjx : sortKey j < sortKey x := by
        have := (Bool.not_eq_true _).mp hle
        simpa only [newestLe, decide_eq_false_iff_not, not_le] using this
      simp only [hle, Bool.false_eq_true, if_false]
      by_cases hj : sortKey j = k
      · have hx : ¬ (sortKey x = k) := by omega
        simp [List.filter_cons, hx, ih, hj]
      · by_cases hx : sortKey x = k <;> simp [List.filter_cons, hx, ih, hj]

theorem stableSort_filter_newest (k : Int) (l : List Job) :
    (stableSort newestLe l).filter (fun x => sortKey x == k) =
      l.filter (fun x => sortKey x == k) := by
  induction l with
  | nil => rfl
  | cons j js ih =>
    show (insertSorted newestLe j (stableSort newestLe js)).filter _ = _
    rw [filter_insertSorted_newest, ih]
    by_cases hj : sortKey j = k <;> simp [List.filter_cons, hj]

/-- C6: with the default filter spec (empty search, all dropdowns at
"all", sort newest) `applyFilters` returns every record of the
collection — a permutation of it — ordered by `applicationDate`
descending, and stable on date ties: filtering the output to any fixed
date value reproduces the input's records of that date in their
original relative order. -/
theorem applyFilters_default_newest (jobs : List Job) :
    (applyFilters jobs defaultFilters).Perm jobs ∧
    (applyFilters jobs defaultFilters).Pairwise (fun a b => sortKey b ≤ sortKey a) ∧
    ∀ k : Int, (applyFilters jobs defaultFilters).filter (fun x => sortKey x == k) =
      jobs.filter (fun x => sortKey x == k) := by
  have hred : applyFilters jobs defaultFilters = stableSort newestLe jobs := by
    simp [applyFilters, defaultFilters]
  rw [hred]
  exact ⟨stableSort_perm _ _, stableSort_pairwise_newest _,
    fun k => stableSort_filter_newest k _⟩

/-! ### Claim C3: parsing lemmas -/

theorem scanAux_nil : ∀ fuel, scanAux fuel [] = [] := by
  intro fuel; cases fuel <;> rfl

theorem lookaheadOk_comma (r : List Char) : lookaheadOk (',' :: r) = true := by
  have h : isSpaceChar ',' = false := by decide
  simp [lookaheadOk, List.dropWhile_cons, h]

theorem matchQuoted_clean (f : List Char) (r : List Char)
    (hf : ∀ c ∈ f, ¬(c = '"' ∨ c = '\n' ∨ c = '\r'))
    (hr : lookaheadOk r = true) :
    matchQuoted (f ++ '"' :: r) = some (f, r) := by
  induction f with
  | nil => simp [matchQuoted, hr]
  | cons c f ih =>
    have hc := hf c (List.mem_cons_self c f)
    push_neg at hc
    obtain ⟨h1, h2, h3⟩ := hc
    have ih2 := ih (fun x hx => hf x (List.mem_cons_of_mem c hx))
    simp [matchQuoted, h1, h2, h3, ih2]

theorem matchAt_comma (r : List Char) : matchAt ',' r = none := by
  have h1 : ¬((',' : Char) = '"') := by decide
  have h2 : barePred ',' = false := by decide
  simp [matchAt, h1, h2]

theorem stripQuotes_quoteCell (f : List Char) : stripQuotes (quoteCell f) = f := by
  have h : ((f ++ ['"']).getLast?) = some '"' := List.getLast?_concat _
  simp [stripQuotes, quoteCell, h, List.dropLast_concat]

theorem trimList_quoted (m : List Char) :
    trimList ('"' :: m ++ ['"']) = '"' :: m ++ ['"'] := by
  have hq : isSpaceChar '"' = false := by decide
  have h1 : '"' :: m ++ ['"'] = '"' :: (m ++ ['"']) := by simp
  have hr : ('"' :: (m ++ ['"'])).reverse = '"' :: (m.reverse ++ ['"']) := by simp
  unfold trimList
  rw [h1, List.dropWhile_cons]
  simp only [hq, Bool.false_eq_true, if_false]
  rw [hr, List.dropWhile_cons]
  simp only [hq, Bool.false_eq_true, if_false]
  rw [← hr, List.reverse_reverse, ← h1]

theorem rowOf_shape : ∀ fs : List (List Char), fs ≠ [] →
    ∃ m, rowOf fs = '"' :: m ++ ['"'] := by
  intro fs
  induction fs with
  | nil => intro h; exact absurd rfl h
  | cons f gs ih =>
    intro _
    cases gs with
    | nil => exact ⟨f, rfl⟩
    | cons g gs' =>
      obtain ⟨m, hm⟩ := ih (by simp)
      refine ⟨f ++ '"' :: ',' :: '"' :: m, ?_⟩
      show quoteCell f ++ ',' :: rowOf (g :: gs') = _
      rw [hm]
      simp [quoteCell]

theorem mem_rowOf : ∀ (fs : List (List Char)) (c : Char), c ∈ rowOf fs →
    c = '"' ∨ c = ',' ∨ ∃ f ∈ fs, c ∈ f := by
  intro fs
  induction fs with
  | nil => intro c hc; simp [rowOf] at hc
  | cons f gs ih =>
    intro c hc
    cases gs with
    | nil =>
      simp only [rowOf, quoteCell] at hc
      rcases List.mem_cons.mp hc with rfl | hc'
      · exact Or.inl rfl
      · rcases List.mem_append.mp hc' with h | h
        · exact Or.inr (Or.inr ⟨f, by simp, h⟩)
        · simp at h; exact Or.inl h
    | cons g gs' =>
      rw [show rowOf (f :: g :: gs') = quoteCell f ++ ',' :: rowOf (g :: gs') from rfl] at hc
      rcases List.mem_append.mp hc with h | h
      · simp only [quoteCell] at h
        rcases List.mem_cons.mp h with rfl | h'
        · exact Or.inl rfl
        · rcases List.mem_append.mp h' with h2 | h2
          · exact Or.inr (Or.inr ⟨f, by simp, h2⟩)
          · simp at h2; exact Or.inl h2
      · rcases List.mem_cons.mp h with rfl | h2
        · exact Or.inr (Or.inl rfl)
        · rcases ih c h2 with h3 | h3 | ⟨f', hf', hcf'⟩
          · exact Or.inl h3
          · exact Or.inr (Or.inl h3)
          · exact Or.inr (Or.inr ⟨f', List.mem_cons_of_mem f hf', hcf'⟩)

theorem matchAt_quoted (f r : List Char)
    (hf : ∀ c ∈ f, ¬(c = '"' ∨ c = '\n' ∨ c = '\r'))
    (hr : lookaheadOk r = true) :
    matchAt '"' (f ++ '"' :: r) = some (quoteCell f, r) := by
  unfold matchAt
  rw [if_pos rfl, matchQuoted_clean f r hf hr]
  simp [quoteCell]

theorem scanAux_row (fs : List (List Char)) :
    ∀ fuel : Nat, fs ≠ [] →
    (∀ f ∈ fs, ∀ c ∈ f, ¬(c = '"' ∨ c = '\n' ∨ c = '\r')) →
    (rowOf fs).length ≤ fuel →
    scanAux fuel (rowOf fs) = fs.map quoteCell := by
  induction fs with
  | nil => intro fuel h; exact absurd rfl h
  | cons f gs ih =>
    intro fuel _ hclean hlen
    have hf : ∀ c ∈ f, ¬(c = '"' ∨ c = '\n' ∨ c = '\r') :=
      hclean f (List.mem_cons_self f gs)
    cases gs with
    | nil =>
      have hlen2 : f.length + 2 ≤ fuel := by
        simpa [rowOf, quoteCell] using hlen
      cases fuel with
      | zero => omega
      | succ fuel1 =>
        show scanAux (fuel1 + 1) (quoteCell f) = [quoteCell f]
        rw [show quoteCell f = '"' :: (f ++ '"' :: []) from List.cons_append '"' f _]
        simp only [scanAux]
        rw [matchAt_quoted f [] hf rfl]
        simp [scanAux_nil, quoteCell]
    | cons g gs2 =>
      have hgs : ∀ f2 ∈ g :: gs2, ∀ c ∈ f2, ¬(c = '"' ∨ c = '\n' ∨ c = '\r') :=
        fun f2 h2 => hclean f2 (List.mem_cons_of_mem f h2)
      have hrow : rowOf (f :: g :: gs2) = '"' :: (f ++ '"' :: ',' :: rowOf (g :: gs2)) := by
        show quoteCell f ++ ',' :: rowOf (g :: gs2) = _
        simp [quoteCell]
      rw [hrow] at hlen
      have hlen2 : f.length + (rowOf (g :: gs2)).length + 3 ≤ fuel := by
        simp only [List.length_cons, List.length_append] at hlen
        omega
      rw [show scanAux fuel (rowOf (f :: g :: gs2)) =
            scanAux fuel ('"' :: (f ++ '"' :: ',' :: rowOf (g :: gs2))) from by rw [hrow]]
      cases fuel with
      | zero => omega
      | succ fuel1 =>
        simp only [scanAux]
        rw [matchAt_quoted f (',' :: rowOf (g :: gs2)) hf (lookaheadOk_comma _)]
        cases fuel1 with
        | zero => omega
        | succ fuel2 =>
          simp only [scanAux]
          rw [matchAt_comma]
          rw [ih (fuel2) (by simp) hgs (by omega)]
          simp

theorem splitOnChar_cons_eq (c x : Char) (xs : List Char) :
    splitOnChar c (x :: xs) =
      match splitOnChar c xs with
      | [] => [[]]
      | h :: t => if x = c then [] :: h :: t else (x :: h) :: t := rfl

theorem splitOnChar_ne_nil (c : Char) : ∀ l, splitOnChar c l ≠ [] := by
  intro l
  induction l with
  | nil => simp [splitOnChar]
  | cons x xs ih =>
    cases hsp : splitOnChar c xs with
    | nil => exact absurd hsp ih
    | cons h t =>
      rw [splitOnChar_cons_eq, hsp]
      by_cases hx : x = c <;> simp [hx]

theorem splitOnChar_not_mem (c : Char) : ∀ l, c ∉ l → splitOnChar c l = [l] := by
  intro l
  induction l with
  | nil => intro; rfl
  | cons x xs ih =>
    intro h
    have hx : ¬(x = c) := fun hcontra => h (hcontra ▸ List.mem_cons_self x xs)
    have hxs : c ∉ xs := fun hc => h (List.mem_cons_of_mem x hc)
    rw [splitOnChar_cons_eq, ih hxs]
    simp [hx]

theorem splitOnChar_append (c : Char) :
    ∀ (l rest : List Char), c ∉ l →
      splitOnChar c (l ++ c :: rest) = l :: splitOnChar c rest := by
  intro l
  induction l with
  | nil =>
    intro rest _
    show splitOnChar c (c :: rest) = [] :: splitOnChar c rest
    rw [splitOnChar_cons_eq]
    cases hsp : splitOnChar c rest with
    | nil => exact absurd hsp (splitOnChar_ne_nil c rest)
    | cons h t => simp
  | cons x l2 ih =>
    intro rest h
    have hx : ¬(x = c) := fun hcontra => h (hcontra ▸ List.mem_cons_self x _)
    have hl2 : c ∉ l2 := fun hc => h (List.mem_cons_of_mem x hc)
    show splitOnChar c (x :: (l2 ++ c :: rest)) = (x :: l2) :: splitOnChar c rest
    rw [splitOnChar_cons_eq, ih rest hl2]
    simp [hx]

theorem splitOnChar_joinLines :
    ∀ ls : List (List Char), ls ≠ [] → (∀ l ∈ ls, '\n' ∉ l) →
      splitOnChar '\n' (joinLines ls) = ls := by
  intro ls
  induction ls with
  | nil => intro h; exact absurd rfl h
  | cons l gs ih =>
    intro _ hmem
    cases gs with
    | nil =>
      show splitOnChar '\n' l = [l]
      exact splitOnChar_not_mem _ l (hmem l (List.mem_cons_self l _))
    | cons g gs2 =>
      show splitOnChar '\n' (l ++ '\n' :: joinLines (g :: gs2)) = l :: g :: gs2
      rw [splitOnChar_append _ l _ (hmem l (List.mem_cons_self l _))]
      rw [ih (by simp) (fun x hx => hmem x (List.mem_cons_of_mem l hx))]

theorem stringMk_toList (s : String) : String.mk s.toList = s := rfl

theorem exportFields_clean (j : Job) (hc : cleanJob j) :
    ∀ f ∈ exportFields j, ∀ c ∈ f, ¬(c = '"' ∨ c = '\n' ∨ c = '\r') := by
  obtain ⟨h1, h2, h3, h4, h5, h6, h7, h8, -, -, -⟩ := hc
  intro f hf
  simp only [exportFields, List.mem_cons, List.not_mem_nil, or_false] at hf
  rcases hf with rfl | rfl | rfl | rfl | rfl | rfl | rfl | rfl
  · exact h1
  · exact h2
  · exact h3
  · exact h4
  · exact h5
  · exact h6
  · exact h7
  · exact h8

theorem parseLine_row (j : Job) (hc : cleanJob j) :
    parseLine (rowOf (exportFields j)) = some (payload j) := by
  obtain ⟨m, hm⟩ := rowOf_shape (exportFields j) (by simp [exportFields])
  have htrim : trimList (rowOf (exportFields j)) = rowOf (exportFields j) := by
    rw [hm]; exact trimList_quoted m
  have hempty : (rowOf (exportFields j)).isEmpty = false := by
    rw [hm]; simp
  have hscan : scanMatches (rowOf (exportFields j)) = (exportFields j).map quoteCell :=
    scanAux_row (exportFields j) ((rowOf (exportFields j)).length)
      (by simp [exportFields]) (exportFields_clean j hc) (le_refl _)
  unfold parseLine
  rw [htrim]
  rw [if_neg (by simp [hempty])]
  rw [hscan]
  simp [exportFields, stripQuotes_quoteCell, payload, stringMk_toList]

theorem payload_createJob (u t : String) (j : Job) (hc : cleanJob j) :
    payload (createJob u t (payload j)) = payload j := by
  obtain ⟨-, -, -, -, -, -, -, -, h9, h10, h11⟩ := hc
  unfold payload createJob
  simp only [h9, h10, h11]
  by_cases hl : j.jobLink = "" <;> by_cases hn : j.notes = "" <;> simp [hl, hn]

theorem importLines_export (us cs : Nat → String) :
    ∀ (js : List Job) (n : Nat) (acc : List Job), (∀ j ∈ js, cleanJob j) →
      (importLines us cs true (js.map (fun j => rowOf (exportFields j))) n acc).1.map
          payload = js.map payload ∧
      (importLines us cs true (js.map (fun j => rowOf (exportFields j))) n acc).2.map
          payload = (js.map payload).reverse ++ acc.map payload := by
  intro js
  induction js with
  | nil => intro n acc _; simp [importLines]
  | cons j js2 ih =>
    intro n acc h
    have hj := h j (List.mem_cons_self j js2)
    have hrow := parseLine_row j hj
    obtain ⟨ih1, ih2⟩ := ih (n + 1) (createJob (us n) (cs n) (payload j) :: acc)
      (fun x hx => h x (List.mem_cons_of_mem j hx))
    constructor
    · simp only [List.map_cons, importLines, hrow, addJob, if_pos]
      simp [ih1, payload_createJob _ _ j hj]
    · simp only [List.map_cons, importLines, hrow, addJob, if_pos]
      simp [ih2, payload_createJob _ _ j hj]

/-- C3 (amended): exporting a non-empty collection whose records are
CSV-clean (no quotes or line terminators in fields, free text already
sanitize-fixed) and importing the text into an empty store reproduces
the eight `company/.../notes` payload fields of every record (`id` and
`createdAt` regenerated); the per-line processing order matches the
export order, but the resulting collection is in REVERSE export order,
because each imported line is unshifted onto the front. -/
theorem csv_roundtrip_reversed (jobs : List Job) (us cs : Nat → String)
    (h : ∀ j ∈ jobs, cleanJob j) (hne : jobs ≠ []) :
    (importFromCSV (csvText jobs) us cs true []).1.map payload = jobs.map payload ∧
    (importFromCSV (csvText jobs) us cs true []).2.map payload =
      (jobs.map payload).reverse := by
  have hnl : ∀ l ∈ headerLine :: jobs.map (fun j => rowOf (exportFields j)),
      '\n' ∉ l := by
    intro l hl
    rcases List.mem_cons.mp hl with rfl | hl2
    · decide
    · obtain ⟨j, hj, rfl⟩ := List.mem_map.mp hl2
      intro hmem
      rcases mem_rowOf _ _ hmem with h1 | h1 | ⟨f, hf, hcf⟩
      · exact absurd h1 (by decide)
      · exact absurd h1 (by decide)
      · exact exportFields_clean j (h j hj) f hf '\n' hcf (Or.inr (Or.inl rfl))
  have hsplit : splitOnChar '\n' (csvText jobs) =
      headerLine :: jobs.map (fun j => rowOf (exportFields j)) :=
    splitOnChar_joinLines _ (by simp) hnl
  have hlen : ¬((headerLine :: jobs.map (fun j => rowOf (exportFields j))).length < 2) := by
    have := List.length_pos.mpr hne
    simp only [List.length_cons, List.length_map]
    omega
  unfold importFromCSV
  rw [hsplit, if_neg hlen]
  have := importLines_export us cs jobs 0 [] h
  simpa using this

set_option maxRecDepth 8192 in
/-- Counterexample to C3 as stated: for a concrete clean two-record
collection, the collection produced by export-then-import is NOT in
the export order (it is reversed). -/
theorem csv_roundtrip_not_same_order :
    (importFromCSV (csvText [sampleJob1, sampleJob2]) sampleUuids sampleCreatedAts
        true []).2.map payload ≠ [sampleJob1, sampleJob2].map payload := by decide

set_option maxRecDepth 8192 in
/-- Witness for the amended C3 at the same concrete collection. -/
theorem csv_roundtrip_reversed_witness :
    (∀ j ∈ [sampleJob1, sampleJob2], cleanJob j) ∧
    ([sampleJob1, sampleJob2] ≠ ([] : List Job)) ∧
    (importFromCSV (csvText [sampleJob1, sampleJob2]) sampleUuids sampleCreatedAts
        true []).1.map payload = [sampleJob1, sampleJob2].map payload ∧
    (importFromCSV (csvText [sampleJob1, sampleJob2]) sampleUuids sampleCreatedAts
        true []).2.map payload = ([sampleJob1, sampleJob2].map payload).reverse :=
  ⟨by decide, by simp,
    (csv_roundtrip_reversed [sampleJob1, sampleJob2] sampleUuids sampleCreatedAts
      (by decide) (by simp)).1,
    (csv_roundtrip_reversed [sampleJob1, sampleJob2] sampleUuids sampleCreatedAts
      (by decide) (by simp)).2⟩

end JobTracker
